import Mathlib

/-!
Verification development for the semantic-memory MCP server
(`src/mcp_sse_handler.py`, `src/embedding_check.py`, `src/server.py`).

The Python source is shallowly embedded here:

* The embedding model (`StableEmbeddingModel.encode`) and the numpy
  primitives `np.dot` / `np.linalg.norm` are opaque external capabilities;
  they are passed in as parameters (the `ProviderCtx` structure) so that
  theorems quantify over every possible model behaviour.
* IEEE-754 float values produced by the similarity arithmetic are modelled
  by `FVal`: an exact rational for finite values plus `inf`, `neginf` and
  `nan`; `fmul`/`fdiv` follow the IEEE special-value propagation rules
  (finite arithmetic is idealised as exact, signed zero is collapsed to 0).
* The SQLite `notes` table is a `List Note`; the `SELECT ... FROM notes`
  scan yields rows in store order (rowid order, i.e. ascending id for a
  store built by `INSERT` with `AUTOINCREMENT`); `AUTOINCREMENT` id
  assignment is modelled as max-id-plus-one over the current store.
* Python dicts for request params / tool arguments become structures with
  `Option` fields (`none` = key absent); `dict.get` with a default becomes
  `Option.getD`; Python truthiness of strings / ints is modelled explicitly.
* `round(x, 4)` is modelled as exact rounding of a rational to 4 decimal
  places; `list.sort(key=..., reverse=True)` (a stable descending sort)
  is modelled by the stable insertion sort `isortD`.
* `hashlib.sha256(...).hexdigest()` is an opaque function parameter and
  `hmac.compare_digest` is string equality.
-/

namespace NeuralMemory

/-- Model of an IEEE-754 double as seen by the similarity arithmetic:
either an exact finite rational or one of the special values. -/
inductive FVal where
  | num : ℚ → FVal
  | inf : FVal
  | neginf : FVal
  | nan : FVal
deriving DecidableEq, Repr

/-- Is the float value finite? -/
def FVal.isFinite : FVal → Bool
  | .num _ => true
  | _ => false

/-- IEEE multiplication on the float model (finite arithmetic exact,
special values propagated per IEEE-754; `inf * 0 = nan`). -/
def fmul : FVal → FVal → FVal
  | .nan, _ => .nan
  | _, .nan => .nan
  | .inf, .inf => .inf
  | .inf, .neginf => .neginf
  | .neginf, .inf => .neginf
  | .neginf, .neginf => .inf
  | .inf, .num b => if 0 < b then .inf else if b < 0 then .neginf else .nan
  | .num a, .inf => if 0 < a then .inf else if a < 0 then .neginf else .nan
  | .neginf, .num b => if 0 < b then .neginf else if b < 0 then .inf else .nan
  | .num a, .neginf => if 0 < a then .neginf else if a < 0 then .inf else .nan
  | .num a, .num b => .num (a * b)

/-- IEEE division on the float model (`x / 0` gives a signed infinity or
`nan`, `finite / inf = 0`, `inf / inf = nan`; signed zero collapsed). -/
def fdiv : FVal → FVal → FVal
  | .nan, _ => .nan
  | _, .nan => .nan
  | .num a, .num b =>
      if b = 0 then (if a = 0 then .nan else if 0 < a then .inf else .neginf)
      else .num (a / b)
  | .num _, .inf => .num 0
  | .num _, .neginf => .num 0
  | .inf, .num b => if 0 ≤ b then .inf else .neginf
  | .neginf, .num b => if 0 ≤ b then .neginf else .inf
  | .inf, .inf => .nan
  | .inf, .neginf => .nan
  | .neginf, .inf => .nan
  | .neginf, .neginf => .nan

/-- Python comparison `v >= c` for a float `v` against a finite rational
constant `c`: false whenever `v` is `nan` (IEEE unordered). -/
def fgeq (v : FVal) (c : ℚ) : Bool :=
  match v with
  | .num a => decide (c ≤ a)
  | .inf => true
  | .neginf => false
  | .nan => false

/-- Total comparison used as the key order of the stable descending sort:
`fge a b` means `a` sorts no later than `b` in descending order.  On the
values that can actually carry into the sort (finite numbers and `inf`)
this agrees with Python float comparison; `nan` (which never passes the
relevance filter) is placed at the bottom to keep the order total. -/
def fge : FVal → FVal → Bool
  | _, .nan => true
  | .nan, _ => false
  | _, .neginf => true
  | .neginf, _ => false
  | .inf, _ => true
  | _, .inf => false
  | .num a, .num b => decide (b ≤ a)

/-- Exact model of Python `round(q, 4)` on a finite rational (rounding to
4 decimal places; the half-to-even tie rule of binary floats is idealised
as round-half-up, which only differs on exact half-way ties). -/
def round4 (q : ℚ) : ℚ := ((q * 10000 + 1/2).floor : ℚ) / 10000

/-- `round(sim, 4)` lifted to the float model: `round` of a non-finite
float returns it unchanged. -/
def round4F : FVal → FVal
  | .num a => .num (round4 a)
  | v => v

/-- A stored note: one row of the SQLite `notes` table
(`id, content, category, timestamp, embedding_vector`); the blob column is
nullable, and its byte content is opaque (type parameter `β`). -/
structure Note (β : Type) where
  id : Int
  content : String
  category : String
  timestamp : String
  embedding : Option β
deriving DecidableEq, Repr

/-- One search result record as built by `search_notes`
(the dict with id, content, category, and similarity rounded via round(sim, 4)). -/
structure SRes where
  id : Int
  content : String
  category : String
  similarity : FVal
deriving DecidableEq, Repr

/-- The opaque external capabilities used by the handler: the embedding
model (`StableEmbeddingModel.encode`, treated as returning an opaque
vector value), the numpy dot product and norm on such values, and the
current timestamp `datetime.now().isoformat()`. -/
structure ProviderCtx (β : Type) where
  enc : String → β
  dotp : β → β → FVal
  norm : β → FVal
  now : String

/-- The per-note similarity expression of `search_notes`
(`float(np.dot(query_emb, note_emb) / (np.linalg.norm(query_emb) * np.linalg.norm(note_emb)))`). -/
def cosineSimF {β : Type} (ctx : ProviderCtx β) (qe : β) (e : β) : FVal :=
  fdiv (ctx.dotp qe e) (fmul (ctx.norm qe) (ctx.norm e))

/-- The result-collection loop of `search_notes`: scan rows whose
`embedding_vector IS NOT NULL`, compute the similarity, keep rows with
`sim >= 0.4`, and record the similarity rounded to 4 decimal places. -/
def collectResults {β : Type} (simOf : β → FVal) : List (Note β) → List SRes
  | [] => []
  | n :: rest =>
      match n.embedding with
      | none => collectResults simOf rest
      | some e =>
          if fgeq (simOf e) (2/5) then
            { id := n.id, content := n.content, category := n.category,
              similarity := round4F (simOf e) } :: collectResults simOf rest
          else collectResults simOf rest

/-- Stable insertion step for the descending sort (model of the stability
of CPython `list.sort(key=..., reverse=True)`): an element is placed
before the first element whose key is not greater or equal. -/
def insertD (x : SRes) : List SRes → List SRes
  | [] => [x]
  | y :: ys => if fge x.similarity y.similarity then x :: y :: ys else y :: insertD x ys

/-- Model of `results.sort(key=lambda x: x["similarity"], reverse=True)`:
a stable descending sort on the `similarity` field. -/
def isortD : List SRes → List SRes
  | [] => []
  | x :: xs => insertD x (isortD xs)

/-- Model of the Python slice `l[:n]` for an arbitrary integer `n`:
a nonnegative `n` takes the first `n` elements, a negative `n` drops the
last `|n|` elements. -/
def pySliceTo {α : Type} (l : List α) (n : Int) : List α :=
  if 0 ≤ n then l.take n.toNat else l.take (l.length - (-n).toNat)

/-- The data part of `search_notes`: the truncated result list
`results[:limit]` together with the pre-truncation match count
`len(results)` used for the `N of M` reporting row. -/
def search_results {β : Type} (simOf : β → FVal) (store : List (Note β))
    (lim : Int) : List SRes × Nat :=
  let results := isortD (collectResults simOf store)
  (pySliceTo results lim, results.length)

/-- Rendering of a similarity value inside the report text (float
formatting idealised as rational / special-value printing). -/
def simText : FVal → String
  | .num a => toString a
  | .inf => "inf"
  | .neginf => "-inf"
  | .nan => "nan"

/-- One line block of the search report text. -/
def entryText (r : SRes) : String :=
  "[ID:" ++ toString r.id ++ "] [" ++ r.category ++ "] (similarity: " ++
    simText r.similarity ++ ")\n" ++ r.content ++ "\n\n"

/-- The full report text built by `search_notes`. -/
def searchText (top : List SRes) (total : Nat) : String :=
  top.foldl (fun acc r => acc ++ entryText r)
    ("Found " ++ toString top.length ++ " relevant notes (from " ++
      toString total ++ " total matches):\n\n")

/-- Result value of a handler: either the static payload of `initialize`,
the static tool catalog of `tools/list`, a content success value (a dict
holding one text block), or an error-object dict (code and message)
returned as the handler value. -/
inductive MCPResult where
  | initInfo
  | toolCatalog
  | content (text : String)
  | errObj (code : Int) (msg : String)
deriving DecidableEq, Repr

/-- The error code carried by an `errObj` result, if any. -/
def MCPResult.errCode : MCPResult → Option Int
  | .errObj c _ => some c
  | _ => none

/-- `search_notes(query, limit)`: encode the query, rank the store, and
format the report. -/
def search_notes {β : Type} (ctx : ProviderCtx β) (store : List (Note β))
    (query : String) (lim : Int) : MCPResult :=
  let qe := ctx.enc query
  let out := search_results (fun e => cosineSimF ctx qe e) store lim
  .content (searchText out.1 out.2)

/-- Python character-count slice `s[:n]` on a string. -/
def strTake (s : String) (n : Nat) : String := ⟨s.data.take n⟩

/-- Python character-count slice `s[n:]` on a string. -/
def strDrop (s : String) (n : Nat) : String := ⟨s.data.drop n⟩

/-- Python `s.startswith(p)` (character-wise). -/
def strStartsWith (s p : String) : Bool := p.data.isPrefixOf s.data

/-- Python truthiness of an optional string (absent or empty is falsy). -/
def pyTruthyStr : Option String → Bool
  | none => false
  | some s => s ≠ ""

/-- Python truthiness of an optional integer (absent or zero is falsy). -/
def pyTruthyInt : Option Int → Bool
  | none => false
  | some n => n ≠ 0

/-- Ascending insertion for the category listing of `get_stats`
(model of `sorted(by_category.items())`). -/
def insertAsc (x : String) : List String → List String
  | [] => [x]
  | y :: ys => if x < y then x :: y :: ys else y :: insertAsc x ys

/-- Ascending sort of category names. -/
def sortAsc : List String → List String
  | [] => []
  | x :: xs => insertAsc x (sortAsc xs)

/-- `SELECT category, COUNT(*) FROM notes GROUP BY category` for one
category value. -/
def countCat {β : Type} (store : List (Note β)) (c : String) : Nat :=
  (store.filter (fun n => n.category == c)).length

/-- The statistics report text of `get_stats`. -/
def statsText {β : Type} (store : List (Note β)) : String :=
  "Neural Memory Statistics:\n\nTotal notes: " ++ toString store.length ++
    "\n\nBy category:\n" ++
    String.join ((sortAsc ((store.map (fun n => n.category)).eraseDups)).map
      (fun c => "  - " ++ c ++ ": " ++ toString (countCat store c) ++ "\n"))

/-- `get_stats()`. -/
def get_stats {β : Type} (store : List (Note β)) : MCPResult :=
  .content (statsText store)

/-- Fresh id for an inserted row (`cursor.lastrowid` under
`AUTOINCREMENT`, modelled as max current id plus one). -/
def nextId {β : Type} (store : List (Note β)) : Int :=
  (store.map (fun n => n.id)).foldr max 0 + 1

/-- `add_note(content, category)`: reject empty content with `-32602`,
otherwise embed, insert and report. -/
def add_note {β : Type} (ctx : ProviderCtx β) (store : List (Note β))
    (content category : String) : MCPResult × List (Note β) :=
  if content = "" then (.errObj (-32602) "Content required", store)
  else
    let nid := nextId store
    (.content ("✅ Added note #" ++ toString nid ++ "\nCategory: " ++ category ++
        "\nContent: " ++ content),
      store ++ [{ id := nid, content := content, category := category,
                  timestamp := ctx.now, embedding := some (ctx.enc content) }])

/-- `update_note(note_id, content, category=None)`: falsy id or content is
rejected with `-32602`; an unknown id is rejected with `-32602`; otherwise
the row is rewritten with the new content, a freshly computed embedding, a
fresh timestamp, and `category or existing_category` (Python `or`, so an
omitted or empty category keeps the stored one). -/
def update_note {β : Type} (ctx : ProviderCtx β) (store : List (Note β))
    (note_id : Option Int) (content : Option String) (category : Option String) :
    MCPResult × List (Note β) :=
  if pyTruthyInt note_id = false ∨ pyTruthyStr content = false then
    (.errObj (-32602) "Note ID and content required", store)
  else
    let nid := note_id.getD 0
    let c := content.getD ""
    match store.find? (fun n => n.id == nid) with
    | none => (.errObj (-32602) ("Note #" ++ toString nid ++ " not found"), store)
    | some ex =>
        let emb := ctx.enc c
        let fcat := match category with
          | some cc => if cc = "" then ex.category else cc
          | none => ex.category
        (.content ("✅ Updated note #" ++ toString nid ++ "\nCategory: " ++ fcat ++
            "\nContent: " ++ c),
          store.map (fun n =>
            if n.id == nid then
              { id := n.id, content := c, category := fcat,
                timestamp := ctx.now, embedding := some emb }
            else n))

/-- `delete_note(note_id)`: falsy id rejected with `-32602`, unknown id
rejected with `-32602`, otherwise the row is removed and the prior
content/category reported. -/
def delete_note {β : Type} (store : List (Note β)) (note_id : Option Int) :
    MCPResult × List (Note β) :=
  if pyTruthyInt note_id = false then
    (.errObj (-32602) "Note ID required", store)
  else
    let nid := note_id.getD 0
    match store.find? (fun n => n.id == nid) with
    | none => (.errObj (-32602) ("Note #" ++ toString nid ++ " not found"), store)
    | some ex =>
        (.content ("✅ Deleted note #" ++ toString nid ++ "\nWas: [" ++ ex.category ++
            "] " ++ strTake ex.content 100 ++ "..."),
          store.filter (fun n => !(n.id == nid)))

/-- The `arguments` dict of a `tools/call` request: `Option` fields model
key absence. -/
structure ToolArgs where
  query : Option String := none
  limit : Option Int := none
  content : Option String := none
  category : Option String := none
  note_id : Option Int := none
deriving DecidableEq, Repr

/-- The `params` dict of a `tools/call` request
(`params.get("name")`, `params.get("arguments", dict())`). -/
structure ToolCallParams where
  name : Option String := none
  arguments : ToolArgs := {}
deriving DecidableEq, Repr

/-- `handle_tool_call(params)`: dispatch on the tool name, reading each
argument with `dict.get` and its default. -/
def handle_tool_call {β : Type} (ctx : ProviderCtx β) (store : List (Note β))
    (params : ToolCallParams) : MCPResult × List (Note β) :=
  let args := params.arguments
  if params.name = some "search_neural_memory" then
    (search_notes ctx store (args.query.getD "") (args.limit.getD 5), store)
  else if params.name = some "neural_stats" then
    (get_stats store, store)
  else if params.name = some "add_note" then
    add_note ctx store (args.content.getD "") (args.category.getD "general")
  else if params.name = some "update_note" then
    update_note ctx store args.note_id args.content args.category
  else if params.name = some "delete_note" then
    delete_note store args.note_id
  else
    (.errObj (-32602) ("Unknown tool: " ++ (params.name.getD "None")), store)

/-- `handle_mcp_request(method, params)`: the method dispatch of the
protocol handler (its `except` branch, which converts an exception into a
`-32603` object, has no counterpart because the model is total). -/
def handle_mcp_request {β : Type} (ctx : ProviderCtx β) (store : List (Note β))
    (method : String) (params : ToolCallParams) : MCPResult × List (Note β) :=
  if method = "initialize" then (.initInfo, store)
  else if method = "tools/list" then (.toolCatalog, store)
  else if method = "tools/call" then handle_tool_call ctx store params
  else (.errObj (-32601) ("Method not found: " ++ method), store)

/-- The parsed body of an inbound request: `data.get` of the method key
(defaulting to the capability handshake method), of the params key
(defaulting to an empty dict), and of the id key (defaulting to 1). -/
structure MCPRequest where
  method : Option String := none
  params : Option ToolCallParams := none
  id : Option Int := none
deriving DecidableEq, Repr

/-- The JSON-RPC envelope emitted by `mcp_sse.generate`: the handler value
is always placed under the `result` member; the top-level `error` member
is only produced by the exception fallback. -/
structure Envelope where
  id : Int
  result : Option MCPResult
  error : Option (Int × String)
deriving DecidableEq, Repr

/-- The non-exception path of `mcp_sse.generate`: apply the request-field
defaults, dispatch, and wrap the handler value as
a jsonrpc 2.0 envelope carrying req_id and the handler value under the
result member. -/
def mcp_generate {β : Type} (ctx : ProviderCtx β) (store : List (Note β))
    (req : MCPRequest) : Envelope × List (Note β) :=
  let method := req.method.getD "initialize"
  let params := req.params.getD {}
  let rid := req.id.getD 1
  let out := handle_mcp_request ctx store method params
  ({ id := rid, result := some out.1, error := none }, out.2)

/-- `verify_auth(request)`: check the `api_key` query parameter first; if
it is present and non-empty its hash alone decides; otherwise fall back to
the `Authorization: Bearer` header.  `hash` is the opaque digest function
(`sha256 hexdigest`) and `keyHash` the digest of the configured secret;
`hmac.compare_digest` is modelled as equality. -/
structure AuthRequest where
  api_key : Option String := none
  authorization : Option String := none
deriving DecidableEq, Repr

/-- The credential check of `verify_auth`. -/
def verify_auth (hash : String → String) (keyHash : String)
    (req : AuthRequest) : Bool :=
  if pyTruthyStr req.api_key then
    hash (req.api_key.getD "") == keyHash
  else
    match req.authorization with
    | some a =>
        if strStartsWith a "Bearer " then hash (strDrop a 7) == keyHash
        else false
    | none => false

/-- Spec-side definition (from the wording of the claim, for refutation):
the request carries, in at least one of the two locations, a credential
whose hash equals the hash of the configured secret. -/
def hasMatchingCredential (hash : String → String) (secret : String)
    (req : AuthRequest) : Bool :=
  (match req.api_key with
    | some k => hash k == hash secret
    | none => false) ||
  (match req.authorization with
    | some a => strStartsWith a "Bearer " && (hash (strDrop a 7) == hash secret)
    | none => false)

/-- The credential location actually consulted by `verify_auth`: the
`api_key` parameter when present and non-empty, otherwise the Bearer token
when the header is present with the `Bearer ` marker. -/
def firstCredential (req : AuthRequest) : Option String :=
  if pyTruthyStr req.api_key then req.api_key
  else match req.authorization with
    | some a => if strStartsWith a "Bearer " then some (strDrop a 7) else none
    | none => none

/-- Does the consulted credential (if any) hash to the configured secret? -/
def credMatches (hash : String → String) (secret : String)
    (oc : Option String) : Bool :=
  match oc with
  | some c => hash c == hash secret
  | none => false

/-- The fixed calibration phrase set of `embedding_check.py`. -/
def CALIBRATION_PHRASES : List String :=
  ["The quick brown fox jumps over the lazy dog.",
   "Semantic search uses vector embeddings.",
   "Python programming and machine learning."]

/-- Drift threshold of `embedding_check.py` (`SIMILARITY_THRESHOLD = 0.99`). -/
def SIMILARITY_THRESHOLD : ℚ := 99/100

/-- The persisted calibration baseline
(a dict holding phrases and embeddings); vectors are opaque values of type `V`. -/
structure Calibration (V : Type) where
  phrases : List String
  embeddings : List V
deriving DecidableEq, Repr

/-- `compute_calibration(model)`: embeddings of the fixed phrases
(`encL` is the opaque batch encoder `model.encode`). -/
def compute_calibration {V : Type} (encL : List String → List V) : Calibration V :=
  { phrases := CALIBRATION_PHRASES, embeddings := encL CALIBRATION_PHRASES }

/-- Python `min(list)` (raising `ValueError`, i.e. `none`, on `[]`). -/
def pymin : List ℚ → Option ℚ
  | [] => none
  | x :: xs => some (xs.foldl min x)

/-- Structured model of the `(is_consistent, message)` pair returned by
`check_consistency`; the two drift messages carry the formatted
`min_sim`, modelled as the value itself. -/
inductive CheckMsg where
  | baselineCreated
  | consistent (minSim : ℚ)
  | driftDetected (minSim : ℚ)
deriving DecidableEq, Repr

/-- `check_consistency(model)`: with no saved baseline, create one and
report success; otherwise pair the freshly encoded phrase vectors
(`current`) with the saved baseline vectors index by index, compute
`cosine_similarity` on each pair (`csim`, opaque since it divides by
float norms), take the minimum, and compare against the threshold.
`none` models the `ValueError` that `min([])` would raise. -/
def check_consistency {V : Type} (csim : V → V → ℚ)
    (saved : Option (Calibration V)) (current : List V) :
    Option (Bool × CheckMsg) :=
  match saved with
  | none => some (true, .baselineCreated)
  | some cal =>
      let sims := (current.zip cal.embeddings).map (fun p => csim p.1 p.2)
      match pymin sims with
      | none => none
      | some m =>
          if SIMILARITY_THRESHOLD ≤ m then some (true, .consistent m)
          else some (false, .driftDetected m)

/-- A trivial provider context used to instantiate theorems at concrete
inputs (constant similarity 0). -/
def ctx0 : ProviderCtx Unit :=
  { enc := fun _ => (), dotp := fun _ _ => .num 0, norm := fun _ => .num 1,
    now := "2024-01-01T00:00:00" }

/-- A provider context whose similarity is constantly 1 (dot product and
norms all 1), used to instantiate theorems at concrete inputs. -/
def ctxOne : ProviderCtx Unit :=
  { enc := fun _ => (), dotp := fun _ _ => .num 1, norm := fun _ => .num 1,
    now := "2024-01-01T00:00:00" }

/-- A concrete stored note used to instantiate theorems. -/
def noteA : Note Unit :=
  { id := 1, content := "alpha", category := "general", timestamp := "t0",
    embedding := some () }

/-- A second concrete stored note used to instantiate theorems. -/
def noteB : Note Unit :=
  { id := 2, content := "beta", category := "general", timestamp := "t0",
    embedding := some () }

/-- Does a note enter the result list of `search_notes`?  It must have a
stored embedding and its unrounded similarity must clear the 0.4 floor. -/
def passesFloor {β : Type} (simOf : β → FVal) (n : Note β) : Bool :=
  match n.embedding with
  | some e => fgeq (simOf e) (2/5)
  | none => false

/-- The output order claimed for search results: similarities descending,
and ties (equal rounded similarity) in ascending note id. -/
def resOrder (a b : SRes) : Prop :=
  fge a.similarity b.similarity = true ∧ (a.similarity = b.similarity → a.id < b.id)

/-- `Rat.floor` agrees with the `FloorRing` floor. -/
theorem ratFloor_intFloor (q : ℚ) : (q.floor : ℤ) = ⌊q⌋ := by
  rw [Rat.floor_def', Rat.floor_def]

/-- Rounding to 4 decimal places cannot pull a value that clears the 0.4
floor back under it. -/
theorem round4_ge_04 {a : ℚ} (h : 2/5 ≤ a) : 2/5 ≤ round4 a := by
  unfold round4
  rw [ratFloor_intFloor]
  have h1 : (4000 : ℤ) ≤ ⌊a * 10000 + 1/2⌋ := by
    rw [Int.le_floor]
    push_cast
    linarith
  have h2 : (4000 : ℚ) ≤ (⌊a * 10000 + 1/2⌋ : ℚ) := by exact_mod_cast h1
  linarith

/-- The relevance-floor test survives the rounding of the stored
similarity value. -/
theorem fgeq_round4F {v : FVal} (h : fgeq v (2/5) = true) :
    fgeq (round4F v) (2/5) = true := by
  cases v with
  | num a =>
      simp only [fgeq, round4F, decide_eq_true_eq] at h ⊢
      exact round4_ge_04 h
  | inf => rfl
  | neginf => simp [fgeq] at h
  | nan => simp [fgeq] at h

/-- The sort-key order is reflexive. -/
theorem fge_refl (v : FVal) : fge v v = true := by
  cases v with
  | num a => simp [fge]
  | inf => rfl
  | neginf => rfl
  | nan => rfl

/-- The sort-key order is total. -/
theorem fge_total (a b : FVal) : fge a b = true ∨ fge b a = true := by
  cases a <;> cases b <;> simp [fge]
  exact le_total _ _

/-- The sort-key order is transitive. -/
theorem fge_trans {a b c : FVal} (h1 : fge a b = true) (h2 : fge b c = true) :
    fge a c = true := by
  cases a <;> cases b <;> cases c <;> simp_all [fge]
  linarith

/-- Multiplying a non-finite float by anything yields a non-finite float. -/
theorem fmul_nonfinite {a : FVal} (ha : a.isFinite = false) (b : FVal) :
    fmul a b = .inf ∨ fmul a b = .neginf ∨ fmul a b = .nan := by
  cases a with
  | num q => simp [FVal.isFinite] at ha
  | nan => cases b <;> simp [fmul]
  | inf =>
      cases b with
      | num q =>
          simp only [fmul]
          split_ifs <;> simp
      | inf => simp [fmul]
      | neginf => simp [fmul]
      | nan => simp [fmul]
  | neginf =>
      cases b with
      | num q =>
          simp only [fmul]
          split_ifs <;> simp
      | inf => simp [fmul]
      | neginf => simp [fmul]
      | nan => simp [fmul]

/-- A quotient with a non-finite denominator never clears the 0.4 floor:
it is either `nan` (unordered) or exactly 0. -/
theorem fgeq_fdiv_nonfinite {d e : FVal}
    (he : e = .inf ∨ e = .neginf ∨ e = .nan) : fgeq (fdiv d e) (2/5) = false := by
  rcases he with rfl | rfl | rfl <;> cases d <;> simp [fdiv, fgeq]

/-- Membership in an insertion step. -/
theorem mem_insertD {r x : SRes} {l : List SRes} :
    r ∈ insertD x l ↔ r = x ∨ r ∈ l := by
  induction l with
  | nil => simp [insertD]
  | cons y ys ih =>
      by_cases h : fge x.similarity y.similarity = true
      · simp [insertD, h, List.mem_cons]
      · simp only [insertD, if_neg h, List.mem_cons, ih]
        tauto

/-- The stable sort permutes membership only. -/
theorem mem_isortD {r : SRes} {l : List SRes} : r ∈ isortD l ↔ r ∈ l := by
  induction l with
  | nil => simp [isortD]
  | cons x xs ih => simp [isortD, mem_insertD, ih, List.mem_cons]

/-- An insertion step grows the length by one. -/
theorem length_insertD (x : SRes) (l : List SRes) :
    (insertD x l).length = l.length + 1 := by
  induction l with
  | nil => rfl
  | cons y ys ih =>
      by_cases h : fge x.similarity y.similarity = true
      · simp [insertD, h]
      · simp [insertD, h, ih]

/-- The stable sort preserves length. -/
theorem length_isortD (l : List SRes) : (isortD l).length = l.length := by
  induction l with
  | nil => rfl
  | cons x xs ih => simp [isortD, length_insertD, ih]

/-- Inserting into a list sorted by the descending key order keeps it
sorted. -/
theorem pairwise_fge_insertD {x : SRes} {l : List SRes}
    (hl : l.Pairwise (fun a b => fge a.similarity b.similarity = true)) :
    (insertD x l).Pairwise (fun a b => fge a.similarity b.similarity = true) := by
  induction l with
  | nil => simp [insertD]
  | cons y ys ih =>
      rcases List.pairwise_cons.mp hl with ⟨hy, hys⟩
      by_cases h : fge x.similarity y.similarity = true
      · rw [insertD, if_pos h]
        refine List.pairwise_cons.mpr ⟨?_, hl⟩
        intro z hz
        rcases List.mem_cons.mp hz with rfl | hz'
        · exact h
        · exact fge_trans h (hy z hz')
      · rw [insertD, if_neg h]
        refine List.pairwise_cons.mpr ⟨?_, ih hys⟩
        intro z hz
        rcases mem_insertD.mp hz with rfl | hz'
        · rcases fge_total z.similarity y.similarity with h' | h'
          · exact absurd h' h
          · exact h'
        · exact hy z hz'

/-- The output of the stable descending sort is sorted by the key order. -/
theorem pairwise_fge_isortD (l : List SRes) :
    (isortD l).Pairwise (fun a b => fge a.similarity b.similarity = true) := by
  induction l with
  | nil => simp [isortD]
  | cons x xs ih => exact pairwise_fge_insertD ih

/-- Stability of the insertion step: inserting an element that precedes
(in id order) everything already in a `resOrder`-sorted list keeps the
list `resOrder`-sorted. -/
theorem pairwise_resOrder_insertD {x : SRes} {l : List SRes}
    (hl : l.Pairwise resOrder) (hx : ∀ y ∈ l, x.id < y.id) :
    (insertD x l).Pairwise resOrder := by
  induction l with
  | nil => simp [insertD, List.pairwise_cons]
  | cons y ys ih =>
      rcases List.pairwise_cons.mp hl with ⟨hy, hys⟩
      by_cases h : fge x.similarity y.similarity = true
      · rw [insertD, if_pos h]
        refine List.pairwise_cons.mpr ⟨?_, hl⟩
        intro z hz
        rcases List.mem_cons.mp hz with rfl | hz'
        · exact ⟨h, fun _ => hx z (List.mem_cons_self _ _)⟩
        · exact ⟨fge_trans h (hy z hz').1, fun _ => hx z (List.mem_cons_of_mem _ hz')⟩
      · rw [insertD, if_neg h]
        have hx' : ∀ z ∈ ys, x.id < z.id := fun z hz =>
          hx z (List.mem_cons_of_mem y hz)
        refine List.pairwise_cons.mpr ⟨?_, ih hys hx'⟩
        intro z hz
        rcases mem_insertD.mp hz with rfl | hz'
        · refine ⟨?_, ?_⟩
          · rcases fge_total z.similarity y.similarity with h' | h'
            · exact absurd h' h
            · exact h'
          · intro heq
            exact absurd (heq ▸ fge_refl y.similarity) h
        · exact hy z hz'

/-- Stability of the sort: a list with strictly increasing ids sorts to a
list that is descending in similarity with ties in ascending id order. -/
theorem pairwise_resOrder_isortD {l : List SRes}
    (hl : l.Pairwise (fun a b => a.id < b.id)) : (isortD l).Pairwise resOrder := by
  induction l with
  | nil => simp [isortD]
  | cons x xs ih =>
      rcases List.pairwise_cons.mp hl with ⟨hx, hxs⟩
      refine pairwise_resOrder_insertD (ih hxs) ?_
      intro y hy
      exact hx y (mem_isortD.mp hy)

/-- `passesFloor` on a note without an embedding. -/
theorem passesFloor_none {β : Type} {simOf : β → FVal} {n : Note β}
    (he : n.embedding = none) : passesFloor simOf n = false := by
  rw [passesFloor.eq_def, he]

/-- `passesFloor` on a note with a stored embedding. -/
theorem passesFloor_some {β : Type} {simOf : β → FVal} {n : Note β} {e : β}
    (he : n.embedding = some e) : passesFloor simOf n = fgeq (simOf e) (2/5) := by
  rw [passesFloor.eq_def, he]

/-- Collection skips a note without an embedding
(the `WHERE embedding_vector IS NOT NULL` filter). -/
theorem collectResults_cons_none {β : Type} {simOf : β → FVal} {n : Note β}
    {rest : List (Note β)} (he : n.embedding = none) :
    collectResults simOf (n :: rest) = collectResults simOf rest := by
  rw [collectResults, he]

/-- Collection on a note with a stored embedding applies the relevance
floor to its unrounded similarity. -/
theorem collectResults_cons_some {β : Type} {simOf : β → FVal} {n : Note β}
    {e : β} {rest : List (Note β)} (he : n.embedding = some e) :
    collectResults simOf (n :: rest) =
      (if fgeq (simOf e) (2/5) = true then
        { id := n.id, content := n.content, category := n.category,
          similarity := round4F (simOf e) } :: collectResults simOf rest
       else collectResults simOf rest) := by
  rw [collectResults, he]

/-- Characterisation of the collected result rows: each comes from a
stored note with a present embedding whose unrounded similarity clears
the 0.4 floor, and carries the fields of that note with the rounded
similarity. -/
theorem mem_collectResults {β : Type} {simOf : β → FVal} {store : List (Note β)}
    {r : SRes} (h : r ∈ collectResults simOf store) :
    ∃ n ∈ store, ∃ e, n.embedding = some e ∧ fgeq (simOf e) (2/5) = true ∧
      r = { id := n.id, content := n.content, category := n.category,
            similarity := round4F (simOf e) } := by
  induction store with
  | nil => simp [collectResults] at h
  | cons n rest ih =>
      cases he : n.embedding with
      | none =>
          rw [collectResults_cons_none he] at h
          rcases ih h with ⟨n', hn', hrest⟩
          exact ⟨n', List.mem_cons_of_mem n hn', hrest⟩
      | some e =>
          rw [collectResults_cons_some he] at h
          by_cases hf : fgeq (simOf e) (2/5) = true
          · rw [if_pos hf] at h
            rcases List.mem_cons.mp h with rfl | h'
            · exact ⟨n, List.mem_cons_self n rest, e, he, hf, rfl⟩
            · rcases ih h' with ⟨n', hn', hrest⟩
              exact ⟨n', List.mem_cons_of_mem n hn', hrest⟩
          · rw [if_neg hf] at h
            rcases ih h with ⟨n', hn', hrest⟩
            exact ⟨n', List.mem_cons_of_mem n hn', hrest⟩

/-- The number of collected rows equals the number of stored notes that
pass the relevance floor on their unrounded similarity. -/
theorem length_collectResults {β : Type} (simOf : β → FVal)
    (store : List (Note β)) :
    (collectResults simOf store).length = (store.filter (passesFloor simOf)).length := by
  induction store with
  | nil => rfl
  | cons n rest ih =>
      cases he : n.embedding with
      | none =>
          rw [collectResults_cons_none he]
          simp [List.filter_cons, passesFloor_none he, ih]
      | some e =>
          rw [collectResults_cons_some he]
          by_cases hf : fgeq (simOf e) (2/5) = true
          · simp [List.filter_cons, passesFloor_some he, hf, ih]
          · simp [List.filter_cons, passesFloor_some he, hf, ih]

/-- If no stored note passes the floor, nothing is collected. -/
theorem collectResults_eq_nil {β : Type} {simOf : β → FVal}
    {store : List (Note β)} (h : ∀ n ∈ store, passesFloor simOf n = false) :
    collectResults simOf store = [] := by
  induction store with
  | nil => rfl
  | cons n rest ih =>
      have hn := h n (List.mem_cons_self n rest)
      have hrest : ∀ m ∈ rest, passesFloor simOf m = false := fun m hm =>
        h m (List.mem_cons_of_mem n hm)
      cases he : n.embedding with
      | none => rw [collectResults_cons_none he]; exact ih hrest
      | some e =>
          rw [collectResults_cons_some he]
          rw [passesFloor_some he] at hn
          rw [if_neg (by simp [hn])]
          exact ih hrest

/-- Collection preserves the strictly-increasing-id property of the store
scan. -/
theorem pairwise_id_collectResults {β : Type} {simOf : β → FVal}
    {store : List (Note β)}
    (h : store.Pairwise (fun a b => a.id < b.id)) :
    (collectResults simOf store).Pairwise (fun a b => a.id < b.id) := by
  induction store with
  | nil => simp [collectResults]
  | cons n rest ih =>
      rcases List.pairwise_cons.mp h with ⟨hn, hrest⟩
      cases he : n.embedding with
      | none => rw [collectResults_cons_none he]; exact ih hrest
      | some e =>
          rw [collectResults_cons_some he]
          by_cases hf : fgeq (simOf e) (2/5) = true
          · rw [if_pos hf]
            refine List.pairwise_cons.mpr ⟨?_, ih hrest⟩
            intro r hr
            rcases mem_collectResults hr with ⟨n', hn', _, _, _, heq⟩
            have := hn n' hn'
            simp only [heq]
            exact this
          · rw [if_neg hf]; exact ih hrest

/-- A Python slice from the front is a sublist. -/
theorem pySliceTo_sublist {α : Type} (l : List α) (n : Int) :
    (pySliceTo l n).Sublist l := by
  unfold pySliceTo
  split_ifs <;> exact List.take_sublist _ _

/-- With a nonnegative bound, a Python slice returns at most that many
elements. -/
theorem length_pySliceTo_le {α : Type} (l : List α) {n : Int} (hn : 0 ≤ n) :
    ((pySliceTo l n).length : Int) ≤ n := by
  unfold pySliceTo
  rw [if_pos hn]
  have h1 : (l.take n.toNat).length ≤ n.toNat := by
    simp [List.length_take]
  have h2 : ((l.take n.toNat).length : Int) ≤ (n.toNat : Int) := by exact_mod_cast h1
  rwa [Int.toNat_of_nonneg hn] at h2

/-- The slice of an empty list is empty. -/
theorem pySliceTo_nil {α : Type} (n : Int) : pySliceTo ([] : List α) n = [] := by
  unfold pySliceTo
  split_ifs <;> simp

/-- A left fold with `min` stays below its initial value. -/
theorem foldl_min_le_init (xs : List ℚ) : ∀ x : ℚ, xs.foldl min x ≤ x := by
  induction xs with
  | nil => intro x; simp
  | cons y ys ih =>
      intro x
      calc (y :: ys).foldl min x = ys.foldl min (min x y) := by simp
      _ ≤ min x y := ih (min x y)
      _ ≤ x := min_le_left x y

/-- A left fold with `min` bounds every list element from below. -/
theorem foldl_min_le_mem (xs : List ℚ) :
    ∀ x : ℚ, ∀ s ∈ xs, xs.foldl min x ≤ s := by
  induction xs with
  | nil => intro x s hs; simp at hs
  | cons y ys ih =>
      intro x s hs
      rcases List.mem_cons.mp hs with rfl | hs'
      · calc (s :: ys).foldl min x = ys.foldl min (min x s) := by simp
        _ ≤ min x s := foldl_min_le_init ys (min x s)
        _ ≤ s := min_le_right x s
      · calc (y :: ys).foldl min x = ys.foldl min (min x y) := by simp
        _ ≤ s := ih (min x y) s hs'

/-- A left fold with `min` returns its initial value or a list element. -/
theorem foldl_min_mem (xs : List ℚ) :
    ∀ x : ℚ, xs.foldl min x = x ∨ xs.foldl min x ∈ xs := by
  induction xs with
  | nil => intro x; simp
  | cons y ys ih =>
      intro x
      have h1 : (y :: ys).foldl min x = ys.foldl min (min x y) := by simp
      rcases ih (min x y) with h | h
      · rcases min_choice x y with hc | hc
        · left; rw [h1, h, hc]
        · right; rw [h1, h, hc]; exact List.mem_cons_self _ _
      · right; rw [h1]; exact List.mem_cons_of_mem _ h

/-- `min` of a nonempty list exists, belongs to the list, and bounds every
element from below. -/
theorem pymin_spec {l : List ℚ} (h : l ≠ []) :
    ∃ m, pymin l = some m ∧ m ∈ l ∧ ∀ s ∈ l, m ≤ s := by
  cases l with
  | nil => exact absurd rfl h
  | cons x xs =>
      refine ⟨xs.foldl min x, rfl, ?_, ?_⟩
      · rcases foldl_min_mem xs x with h' | h'
        · rw [h']; exact List.mem_cons_self _ _
        · exact List.mem_cons_of_mem _ h'
      · intro s hs
        rcases List.mem_cons.mp hs with rfl | hs'
        · exact foldl_min_le_init xs s
        · exact foldl_min_le_mem xs x s hs'

/-- Rewriting every matching row of the store keeps the first matching
row in place, when the rewrite preserves the row id. -/
theorem find?_map_rewrite {β : Type} (nid : Int) (g : Note β → Note β)
    (hg : ∀ n : Note β, (g n).id = n.id) :
    ∀ {l : List (Note β)} {n0 : Note β},
      l.find? (fun n => n.id == nid) = some n0 →
      (l.map (fun n => if n.id == nid then g n else n)).find?
          (fun n => n.id == nid) = some (g n0) := by
  intro l
  induction l with
  | nil => intro n0 h; simp at h
  | cons a rest ih =>
      intro n0 h
      by_cases ha : (a.id == nid) = true
      · rw [List.find?_cons, ha] at h
        injection h with h0
        subst h0
        have hga : ((g a).id == nid) = true := by rw [hg a]; exact ha
        simp only [List.map_cons, if_pos ha]
        rw [List.find?_cons, hga]
      · rw [List.find?_cons, Bool.eq_false_iff.mpr ha] at h
        simp only [List.map_cons, if_neg ha]
        rw [List.find?_cons, Bool.eq_false_iff.mpr ha]
        exact ih h

/-- C1 (counterexample): for the unknown method `foo`, the emitted
envelope has NO top-level `error` member; the `-32601` error object is
nested inside the `result` member instead, refuting the claimed envelope
shape `{ id, error: { code: -32601, message } }`. -/
theorem c1_counterexample :
    (mcp_generate ctx0 ([] : List (Note Unit))
        { method := some "foo", params := none, id := some 7 }).1.error = none ∧
    (mcp_generate ctx0 ([] : List (Note Unit))
        { method := some "foo", params := none, id := some 7 }).1.result =
      some (.errObj (-32601) "Method not found: foo") :=
  ⟨rfl, rfl⟩

/-- C1 (amended): for every request whose method is present and not one
of `initialize`, `tools/list`, `tools/call`, the response envelope is
`{ id, result: { error: { code: -32601, message } } }` — the error object
is nested inside the `result` member and the top-level `error`
member is absent. -/
theorem c1_amended {β : Type} (ctx : ProviderCtx β) (store : List (Note β))
    (req : MCPRequest) (m : String) (hm : req.method = some m)
    (h1 : m ≠ "initialize") (h2 : m ≠ "tools/list") (h3 : m ≠ "tools/call") :
    mcp_generate ctx store req =
      ({ id := req.id.getD 1,
         result := some (.errObj (-32601) ("Method not found: " ++ m)),
         error := none }, store) := by
  simp only [mcp_generate, handle_mcp_request, hm, Option.getD_some]
  rw [if_neg h1, if_neg h2, if_neg h3]

/-- C1 (witness): the amended statement instantiated at the method `foo`. -/
theorem c1_witness :
    ("foo" ≠ "initialize") ∧
    mcp_generate ctx0 ([] : List (Note Unit))
        { method := some "foo", params := none, id := some 7 } =
      ({ id := 7, result := some (.errObj (-32601) "Method not found: foo"),
         error := none }, ([] : List (Note Unit))) :=
  ⟨by decide,
   c1_amended ctx0 [] { method := some "foo", params := none, id := some 7 }
     "foo" rfl (by decide) (by decide) (by decide)⟩

/-- C2 (counterexample): a request whose `api_key` parameter is a
non-matching credential but whose `Authorization` header carries a
credential hashing to the secret does carry a matching credential in one
of the two locations, yet `verify_auth` rejects it — refuting the claim
that a matching credential in at least one location suffices. -/
theorem c2_counterexample :
    hasMatchingCredential (fun s => s) "s"
        { api_key := some "w", authorization := some "Bearer s" } = true ∧
    verify_auth (fun s => s) "s"
        { api_key := some "w", authorization := some "Bearer s" } = false :=
  ⟨rfl, rfl⟩

/-- C2 (amended): authorization succeeds exactly when the single
credential location that `verify_auth` consults — the `api_key` query
parameter when present and non-empty, otherwise the Bearer token of the
`Authorization` header — holds a credential hashing to the configured
secret; in particular a request with no credential in either location
fails. -/
theorem c2_amended (hash : String → String) (secret : String) (req : AuthRequest) :
    verify_auth hash (hash secret) req = credMatches hash secret (firstCredential req) := by
  unfold verify_auth firstCredential
  by_cases hk : pyTruthyStr req.api_key = true
  · rw [if_pos hk, if_pos hk]
    cases hak : req.api_key with
    | none => rw [hak] at hk; exact absurd hk (by simp [pyTruthyStr])
    | some k => rfl
  · rw [if_neg hk, if_neg hk]
    cases ha : req.authorization with
    | none => rfl
    | some a =>
        by_cases hb : strStartsWith a "Bearer " = true
        · simp [credMatches, hb]
        · simp [credMatches, hb]

/-- C3 (counterexample): a `tools/call` of the search tool whose
`arguments` object lacks the required `query` key does NOT produce a
`-32602` error — the dispatcher runs the search (with the empty-string
default) and returns a content result. -/
theorem c3_counterexample :
    (handle_tool_call ctx0 ([] : List (Note Unit))
        { name := some "search_neural_memory", arguments := {} }).1 =
      .content "Found 0 relevant notes (from 0 total matches):\n\n" ∧
    (handle_tool_call ctx0 ([] : List (Note Unit))
        { name := some "search_neural_memory", arguments := {} }).1.errCode = none :=
  ⟨rfl, rfl⟩

/-- C3 (amended): when the `query` argument is absent from a search tool
call, the dispatcher substitutes the empty string (`args.get` default)
and invokes the search normally with the default limit handling; no
`-32602` error is produced for the missing required argument. -/
theorem c3_amended {β : Type} (ctx : ProviderCtx β) (store : List (Note β))
    (args : ToolArgs) (h : args.query = none) :
    handle_tool_call ctx store { name := some "search_neural_memory", arguments := args } =
      (search_notes ctx store "" (args.limit.getD 5), store) := by
  simp [handle_tool_call, h]

/-- C3 (witness): the amended statement instantiated at an empty
arguments object and an empty store. -/
theorem c3_witness :
    (({} : ToolArgs).query = none) ∧
    handle_tool_call ctx0 ([] : List (Note Unit))
        { name := some "search_neural_memory", arguments := {} } =
      (search_notes ctx0 [] "" 5, ([] : List (Note Unit))) :=
  ⟨rfl, c3_amended ctx0 [] {} rfl⟩

/-- C9: updating with empty-string content is rejected with `-32602`
before any store access, for every note id (including one that exists),
and the store is returned unmodified — the empty-content validation
applies to update as well. -/
theorem c9_update_empty_content {β : Type} (ctx : ProviderCtx β)
    (store : List (Note β)) (note_id : Option Int) (category : Option String) :
    update_note ctx store note_id (some "") category =
      (.errObj (-32602) "Note ID and content required", store) := by
  simp [update_note, pyTruthyStr]

/-- C8: updating an existing note with the category argument omitted
keeps the stored category and replaces content, embedding (recomputed
from the new content) and timestamp. -/
theorem c8_update_keeps_category {β : Type} (ctx : ProviderCtx β)
    (store : List (Note β)) (nid : Int) (c : String) (n0 : Note β)
    (hfind : store.find? (fun n => n.id == nid) = some n0)
    (hc : c ≠ "") (hnid : nid ≠ 0) :
    (update_note ctx store (some nid) (some c) none).2.find? (fun n => n.id == nid) =
      some { id := n0.id, content := c, category := n0.category,
             timestamp := ctx.now, embedding := some (ctx.enc c) } ∧
    (update_note ctx store (some nid) (some c) none).1 =
      .content ("✅ Updated note #" ++ toString nid ++ "\nCategory: " ++
        n0.category ++ "\nContent: " ++ c) := by
  have hcond : ¬ (pyTruthyInt (some nid) = false ∨ pyTruthyStr (some c) = false) := by
    simp [pyTruthyInt, pyTruthyStr, hc, hnid]
  have hstep : update_note ctx store (some nid) (some c) none =
      (.content ("✅ Updated note #" ++ toString nid ++ "\nCategory: " ++
          n0.category ++ "\nContent: " ++ c),
        store.map (fun n =>
          if n.id == nid then
            { id := n.id, content := c, category := n0.category,
              timestamp := ctx.now, embedding := some (ctx.enc c) }
          else n)) := by
    unfold update_note
    rw [if_neg hcond]
    simp only [Option.getD_some]
    rw [hfind]
  constructor
  · rw [hstep]
    exact find?_map_rewrite nid
      (fun n => { id := n.id, content := c, category := n0.category,
                  timestamp := ctx.now, embedding := some (ctx.enc c) })
      (fun _ => rfl) hfind
  · rw [hstep]

/-- C8 (witness): the statement instantiated at a one-note store. -/
theorem c8_witness :
    ("b" ≠ "") ∧
    ((update_note ctx0 [noteA] (some 1) (some "b") none).2.find?
        (fun n => n.id == 1) =
      some { id := noteA.id, content := "b", category := noteA.category,
             timestamp := ctx0.now, embedding := some (ctx0.enc "b") } ∧
    (update_note ctx0 [noteA] (some 1) (some "b") none).1 =
      .content ("✅ Updated note #" ++ toString (1 : Int) ++ "\nCategory: " ++
        noteA.category ++ "\nContent: " ++ "b")) :=
  ⟨by decide, c8_update_keeps_category ctx0 [noteA] 1 "b" noteA rfl (by decide) (by decide)⟩

/-- Unfolding of the consistency check when a baseline is persisted. -/
theorem check_consistency_some {V : Type} (csim : V → V → ℚ) (cal : Calibration V)
    (current : List V) :
    check_consistency csim (some cal) current =
      (match pymin ((current.zip cal.embeddings).map (fun p => csim p.1 p.2)) with
       | none => none
       | some m =>
          if SIMILARITY_THRESHOLD ≤ m then some (true, .consistent m)
          else some (false, .driftDetected m)) := rfl

/-- C7: with a persisted baseline, the check pairs each re-encoded phrase
with the stored vector at the same index, takes the minimum of the
per-phrase cosine similarities as the drift signal, reports consistency
exactly when that minimum clears the 0.99 threshold, and otherwise
reports drift carrying the offending minimum. -/
theorem c7_drift_minimum {V : Type} (csim : V → V → ℚ) (cal : Calibration V)
    (current : List V)
    (h : (current.zip cal.embeddings).map (fun p => csim p.1 p.2) ≠ []) :
    ∃ m, (m ∈ (current.zip cal.embeddings).map (fun p => csim p.1 p.2) ∧
        ∀ s ∈ (current.zip cal.embeddings).map (fun p => csim p.1 p.2), m ≤ s) ∧
      check_consistency csim (some cal) current =
        some (decide (SIMILARITY_THRESHOLD ≤ m),
          if SIMILARITY_THRESHOLD ≤ m then CheckMsg.consistent m
          else CheckMsg.driftDetected m) := by
  rcases pymin_spec h with ⟨m, hmin, hmem, hlb⟩
  refine ⟨m, ⟨hmem, hlb⟩, ?_⟩
  rw [check_consistency_some, hmin]
  by_cases ht : SIMILARITY_THRESHOLD ≤ m
  · simp [ht]
  · simp [ht]

/-- C7 (witness): the statement instantiated at a constant similarity of
1 over a three-vector baseline. -/
theorem c7_witness :
    ((([(), (), ()] : List Unit).zip
        ({ phrases := CALIBRATION_PHRASES,
           embeddings := [(), (), ()] } : Calibration Unit).embeddings).map
      (fun p => (fun _ _ => (1 : ℚ)) p.1 p.2) ≠ []) ∧
    (∃ m, (m ∈ (([(), (), ()] : List Unit).zip
          ({ phrases := CALIBRATION_PHRASES,
             embeddings := [(), (), ()] } : Calibration Unit).embeddings).map
            (fun p => (fun _ _ => (1 : ℚ)) p.1 p.2) ∧
        ∀ s ∈ (([(), (), ()] : List Unit).zip
          ({ phrases := CALIBRATION_PHRASES,
             embeddings := [(), (), ()] } : Calibration Unit).embeddings).map
            (fun p => (fun _ _ => (1 : ℚ)) p.1 p.2), m ≤ s) ∧
      check_consistency (fun _ _ => (1 : ℚ))
          (some { phrases := CALIBRATION_PHRASES, embeddings := [(), (), ()] })
          [(), (), ()] =
        some (decide (SIMILARITY_THRESHOLD ≤ m),
          if SIMILARITY_THRESHOLD ≤ m then CheckMsg.consistent m
          else CheckMsg.driftDetected m)) :=
  ⟨by simp,
   c7_drift_minimum (fun _ _ => (1 : ℚ))
     { phrases := CALIBRATION_PHRASES, embeddings := [(), (), ()] }
     [(), (), ()] (by simp)⟩

/-- C6: a store with zero embedded notes, or a non-finite query norm
(encoding failure), yields the empty result set with zero total matches;
the model is total, so no numeric error is propagated. -/
theorem c6_degenerate {β : Type} (ctx : ProviderCtx β) (store : List (Note β))
    (query : String) (lim : Int)
    (h : (∀ n ∈ store, n.embedding = none) ∨
      (ctx.norm (ctx.enc query)).isFinite = false) :
    search_results (fun e => cosineSimF ctx (ctx.enc query) e) store lim = ([], 0) ∧
    search_notes ctx store query lim =
      .content "Found 0 relevant notes (from 0 total matches):\n\n" := by
  have hnil : collectResults (fun e => cosineSimF ctx (ctx.enc query) e) store = [] := by
    apply collectResults_eq_nil
    intro n hn
    rcases h with hall | hnf
    · exact passesFloor_none (hall n hn)
    · cases he : n.embedding with
      | none => exact passesFloor_none he
      | some e =>
          rw [passesFloor_some he]
          show fgeq (cosineSimF ctx (ctx.enc query) e) (2/5) = false
          unfold cosineSimF
          exact fgeq_fdiv_nonfinite (fmul_nonfinite hnf (ctx.norm e))
  have hres : search_results (fun e => cosineSimF ctx (ctx.enc query) e) store lim =
      ([], 0) := by
    simp only [search_results, hnil, isortD]
    rw [pySliceTo_nil]
    rfl
  refine ⟨hres, ?_⟩
  simp only [search_notes, hres]
  rfl

/-- C6 (witness): the statement instantiated at the empty store. -/
theorem c6_witness :
    ((∀ n ∈ ([] : List (Note Unit)), n.embedding = none) ∨
      (ctx0.norm (ctx0.enc "anything")).isFinite = false) ∧
    (search_results (fun e => cosineSimF ctx0 (ctx0.enc "anything") e)
        ([] : List (Note Unit)) 5 = ([], 0) ∧
      search_notes ctx0 ([] : List (Note Unit)) "anything" 5 =
        .content "Found 0 relevant notes (from 0 total matches):\n\n") :=
  ⟨Or.inl (by simp), c6_degenerate ctx0 [] "anything" 5 (Or.inl (by simp))⟩

/-- C4 (amended): every returned search result clears the 0.4 relevance
floor (also on its rounded similarity field) for EVERY integer limit,
negative included; and for every NONNEGATIVE limit at most `limit`
results are returned.  (For a negative limit the Python slice
`results[:limit]` drops elements from the end instead, so only the count
bound fails there — see the counterexample.) -/
theorem c4_amended {β : Type} (ctx : ProviderCtx β) (store : List (Note β))
    (query : String) (lim : Int) :
    (∀ r ∈ (search_results (fun e => cosineSimF ctx (ctx.enc query) e) store lim).1,
        fgeq r.similarity (2/5) = true) ∧
    (0 ≤ lim →
      (((search_results (fun e => cosineSimF ctx (ctx.enc query) e) store lim).1.length : Int)
        ≤ lim)) := by
  constructor
  · intro r hr
    have hr2 := mem_isortD.mp ((pySliceTo_sublist _ _).subset hr)
    rcases mem_collectResults hr2 with ⟨n, _, e, _, hf, heq⟩
    rw [heq]
    exact fgeq_round4F hf
  · intro hlim
    exact length_pySliceTo_le _ hlim

/-- C4 (witness): the amended statement instantiated at limit 2 (both
conjuncts, count-bound hypothesis discharged) and at the negative limit
-1 (the floor conjunct, which the amendment asserts unconditionally). -/
theorem c4_witness :
    ((0 : Int) ≤ 2) ∧
    (∀ r ∈ (search_results (fun e => cosineSimF ctx0 (ctx0.enc "q") e)
        ([] : List (Note Unit)) 2).1, fgeq r.similarity (2/5) = true) ∧
    (((search_results (fun e => cosineSimF ctx0 (ctx0.enc "q") e)
        ([] : List (Note Unit)) 2).1.length : Int) ≤ 2) ∧
    (∀ r ∈ (search_results (fun e => cosineSimF ctxOne (ctxOne.enc "q") e)
        [noteA, noteB] (-1)).1, fgeq r.similarity (2/5) = true) :=
  ⟨by decide, (c4_amended ctx0 [] "q" 2).1, (c4_amended ctx0 [] "q" 2).2 (by decide),
   (c4_amended ctxOne [noteA, noteB] "q" (-1)).1⟩

/-- The concrete similarity of the constant-1 provider context. -/
theorem simOne (a b : Unit) : cosineSimF ctxOne a b = .num 1 := by
  simp [cosineSimF, ctxOne, fmul, fdiv]

/-- C4 (counterexample): with two matching notes and the integer limit
`-1`, the Python slice `results[:limit]` returns 1 result, and 1 is not
at most -1 — refuting the claim for EVERY integer limit. -/
theorem c4_counterexample :
    ¬ (((search_results (fun e => cosineSimF ctxOne (ctxOne.enc "q") e)
        [noteA, noteB] (-1)).1.length : Int) ≤ -1) := by
  have pA : passesFloor (fun e => cosineSimF ctxOne (ctxOne.enc "q") e) noteA = true := by
    rw [passesFloor_some (show noteA.embedding = some () from rfl)]
    norm_num [simOne, fgeq]
  have pB : passesFloor (fun e => cosineSimF ctxOne (ctxOne.enc "q") e) noteB = true := by
    rw [passesFloor_some (show noteB.embedding = some () from rfl)]
    norm_num [simOne, fgeq]
  have hlen2 : (isortD (collectResults
      (fun e => cosineSimF ctxOne (ctxOne.enc "q") e) [noteA, noteB])).length = 2 := by
    rw [length_isortD, length_collectResults]
    simp [List.filter_cons, pA, pB]
  have hL : (search_results (fun e => cosineSimF ctxOne (ctxOne.enc "q") e)
      [noteA, noteB] (-1)).1.length = 1 := by
    show (pySliceTo (isortD (collectResults
      (fun e => cosineSimF ctxOne (ctxOne.enc "q") e) [noteA, noteB])) (-1)).length = 1
    unfold pySliceTo
    rw [if_neg (by norm_num)]
    simp [List.length_take, hlen2]
  simp only [hL]
  decide

/-- C5: under the store-scan invariant that rows arrive in strictly
increasing id order (rowid order), the returned results are sorted by
(rounded) similarity descending with ties in ascending note id. -/
theorem c5_sorted {β : Type} (ctx : ProviderCtx β) (store : List (Note β))
    (query : String) (lim : Int)
    (hids : store.Pairwise (fun a b => a.id < b.id)) :
    ((search_results (fun e => cosineSimF ctx (ctx.enc query) e) store lim).1).Pairwise
      resOrder := by
  have h1 : (collectResults (fun e => cosineSimF ctx (ctx.enc query) e)
      store).Pairwise (fun a b => a.id < b.id) := pairwise_id_collectResults hids
  have h2 := pairwise_resOrder_isortD h1
  exact List.Pairwise.sublist (pySliceTo_sublist _ _) h2

/-- C5 (witness): the statement instantiated at a two-note store with
equal similarities (both 1), exercising the tie-break. -/
theorem c5_witness :
    (([noteA, noteB] : List (Note Unit)).Pairwise (fun a b => a.id < b.id)) ∧
    ((search_results (fun e => cosineSimF ctxOne (ctxOne.enc "q") e)
        [noteA, noteB] 5).1).Pairwise resOrder := by
  have hp : ([noteA, noteB] : List (Note Unit)).Pairwise (fun a b => a.id < b.id) := by
    norm_num [List.pairwise_cons, noteA, noteB]
  exact ⟨hp, c5_sorted ctxOne [noteA, noteB] "q" 5 hp⟩

/-- C10: the similarity field of each returned result is the cosine similarity
rounded to 4 decimal places; the output is ordered by these rounded
values (so similarities differing only beyond the 4th decimal place are
ties); and the pre-truncation match count applies the 0.4 floor to the
UNROUNDED similarity. -/
theorem c10_rounding {β : Type} (ctx : ProviderCtx β) (store : List (Note β))
    (query : String) (lim : Int) :
    (∀ r ∈ (search_results (fun e => cosineSimF ctx (ctx.enc query) e) store lim).1,
      ∃ n ∈ store, ∃ e, n.embedding = some e ∧
        fgeq (cosineSimF ctx (ctx.enc query) e) (2/5) = true ∧
        r = { id := n.id, content := n.content, category := n.category,
              similarity := round4F (cosineSimF ctx (ctx.enc query) e) }) ∧
    ((search_results (fun e => cosineSimF ctx (ctx.enc query) e) store lim).1).Pairwise
      (fun a b => fge a.similarity b.similarity = true) ∧
    (search_results (fun e => cosineSimF ctx (ctx.enc query) e) store lim).2 =
      (store.filter (passesFloor (fun e => cosineSimF ctx (ctx.enc query) e))).length := by
  refine ⟨?_, ?_, ?_⟩
  · intro r hr
    have hr2 := mem_isortD.mp ((pySliceTo_sublist _ _).subset hr)
    exact mem_collectResults hr2
  · exact List.Pairwise.sublist (pySliceTo_sublist _ _) (pairwise_fge_isortD _)
  · show (isortD (collectResults (fun e => cosineSimF ctx (ctx.enc query) e) store)).length = _
    rw [length_isortD, length_collectResults]

/-- C10 (witness): the statement instantiated at a one-note store. -/
theorem c10_witness :
    (∀ r ∈ (search_results (fun e => cosineSimF ctxOne (ctxOne.enc "q") e)
        ([noteA] : List (Note Unit)) 5).1,
      ∃ n ∈ ([noteA] : List (Note Unit)), ∃ e, n.embedding = some e ∧
        fgeq (cosineSimF ctxOne (ctxOne.enc "q") e) (2/5) = true ∧
        r = { id := n.id, content := n.content, category := n.category,
              similarity := round4F (cosineSimF ctxOne (ctxOne.enc "q") e) }) ∧
    ((search_results (fun e => cosineSimF ctxOne (ctxOne.enc "q") e)
        ([noteA] : List (Note Unit)) 5).1).Pairwise
      (fun a b => fge a.similarity b.similarity = true) ∧
    (search_results (fun e => cosineSimF ctxOne (ctxOne.enc "q") e)
        ([noteA] : List (Note Unit)) 5).2 =
      (([noteA] : List (Note Unit)).filter
        (passesFloor (fun e => cosineSimF ctxOne (ctxOne.enc "q") e))).length :=
  c10_rounding ctxOne [noteA] "q" 5

end NeuralMemory
